import Mathlib

/-!
Verification of the `VolumeCalculator` slicing/integration core.

Shallow embedding of the TypeScript class `VolumeCalculator`
(plane/triangle intersection, intersection-point deduplication, angular
polygon ordering, shoelace polygon area, trapezoidal volume accumulation).

Modelling conventions:

* Real-valued scalars are embedded as rationals `ℚ`.
* Scalars that can become IEEE-754 NaN are modelled as `FP := Option ℚ`,
  with `none` playing the role of NaN.  In this code the only NaN source
  is the interpolation parameter `t = (height - start.y) / (end.y - start.y)`
  inside `findIntersectionPoints`: whenever its denominator is zero under
  the guarding edge condition, its numerator is zero as well, so the JS
  division produces `0/0 = NaN` exactly when the model produces `none`.
  Mesh vertex coordinates, elevations and slice bounds are plain `ℚ`.
* JS comparisons involving NaN are false; the model's comparisons on `FP`
  return `false` when an operand is `none`.
* `mesh.getVerticesData("position")` / `mesh.getIndices()` are modelled as
  `Option` fields of `Mesh`; the JS falsiness test `!positions` is a
  `none` test (an empty JS array is truthy and passes the guard).
* The bounding-box elevations `boundingInfo.boundingBox.minimumWorld.y` /
  `maximumWorld.y` are the min/max of the vertex y-coordinates (identity
  world transform; an empty mesh gets the degenerate box `0/0`).
* Per the data-model invariant, triangle indices are valid offsets into
  the position sequence; out-of-range reads are modelled with default `0`.
  A trailing partial index triple is dropped: in the source it produces
  NaN vertex coordinates, whose edge comparisons are all false, so it
  contributes no intersection points.
* `Array.prototype.sort` with the angle comparator is a stable sort
  (ES2019) by strictly smaller `atan2` angle; the model uses a stable
  insertion sort with a comparator deciding `atan2(az,ax) < atan2(bz,bx)`
  exactly on rationals.  When the comparator returns NaN the JS order is
  implementation-defined; the model keeps the original order there (every
  result proved about such lists is order-independent).
* `(x).toFixed(6)` keys are modelled as a sign flag together with the
  magnitude rounded to 6 decimal digits (nearest, ties away from zero),
  which distinguishes the JS strings "-0.000000" and "0.000000"; NaN
  coordinates give the key component `none` (the JS string "NaN").
* `sliceCount` is modelled as an integer; the loop `for (i = 0; i < slices)`
  runs `slices.toNat` times.  The unused-when-the-loop-is-empty quantity
  `sliceHeight = (maxY - minY) / slices` is a plain rational (for
  `slices = 0` the JS value would be an infinity or NaN, but it is never
  read, since the loop body does not execute).
-/

namespace VolumeCalc

/-- NaN-able scalar: `none` models IEEE-754 NaN. -/
abbrev FP := Option ℚ

/-- JS `+` on NaN-able scalars. -/
def fadd : FP → FP → FP
  | some a, some b => some (a + b)
  | _, _ => none

/-- JS `-` on NaN-able scalars. -/
def fsub : FP → FP → FP
  | some a, some b => some (a - b)
  | _, _ => none

/-- JS `*` on NaN-able scalars. -/
def fmul : FP → FP → FP
  | some a, some b => some (a * b)
  | _, _ => none

/-- JS `/` on NaN-able scalars.  A zero divisor yields `none`; in this
code a zero divisor only ever occurs with a zero dividend (`0/0 = NaN`). -/
def fdiv : FP → FP → FP
  | some a, some b => if b = 0 then none else some (a / b)
  | _, _ => none

/-- JS `Math.abs` on NaN-able scalars. -/
def fabs : FP → FP
  | some a => some |a|
  | none => none

/-- A mesh vertex (`Vector3` built from the position data). -/
structure Vec3 where
  x : ℚ
  y : ℚ
  z : ℚ
deriving DecidableEq, Repr

/-- An intersection point pushed by `findIntersectionPoints`: its `y` is
set exactly to the plane elevation; `x`/`z` come from the interpolation
and can be NaN. -/
structure IPoint where
  x : FP
  y : ℚ
  z : FP
deriving DecidableEq, Repr, Inhabited

/-- The mesh abstraction: flat position data and flat index data, each
nullable (`getVerticesData("position")` / `getIndices()`). -/
structure Mesh where
  positions : Option (List ℚ)
  indices : Option (List ℕ)
deriving DecidableEq, Repr

/-- Every third entry of the flat position sequence starting at offset 1:
the vertex y-coordinates. -/
def ysOf : List ℚ → List ℚ
  | _ :: y :: _ :: rest => y :: ysOf rest
  | _ => []

/-- Bounding value `boundingBox.minimumWorld.y`: least vertex y-coordinate (0 for an
empty mesh). -/
def minYOf (positions : List ℚ) : ℚ :=
  match ysOf positions with
  | [] => 0
  | y :: ys => ys.foldl min y

/-- Bounding value `boundingBox.maximumWorld.y`: greatest vertex y-coordinate (0 for an
empty mesh). -/
def maxYOf (positions : List ℚ) : ℚ :=
  match ysOf positions with
  | [] => 0
  | y :: ys => ys.foldl max y

/-- The mesh's minimum elevation, as the source reads it from the
bounding box. -/
def meshMinimumElevation (mesh : Mesh) : ℚ :=
  minYOf (mesh.positions.getD [])

/-- The mesh's maximum elevation, as the source reads it from the
bounding box. -/
def meshMaximumElevation (mesh : Mesh) : ℚ :=
  maxYOf (mesh.positions.getD [])

/-- Vertex fetched from the flat position data:
`new Vector3(positions[k*3], positions[k*3+1], positions[k*3+2])`. -/
def vertexAt (positions : List ℚ) (k : ℕ) : Vec3 :=
  ⟨positions.getD (k * 3) 0, positions.getD (k * 3 + 1) 0, positions.getD (k * 3 + 2) 0⟩

/-- Index triples visited by `for (let i = 0; i < indices.length; i += 3)`.
A trailing partial triple is dropped (in the source it yields NaN vertex
coordinates and hence no intersection points). -/
def trianglesOf : List ℕ → List (ℕ × ℕ × ℕ)
  | a :: b :: c :: rest => (a, b, c) :: trianglesOf rest
  | _ => []

/-- One edge of `findIntersectionPoints`: the guarded push
`if ((start.y <= h && end.y >= h) || (start.y >= h && end.y <= h))`,
with `t = (h - start.y) / (end.y - start.y)` and linear interpolation of
the in-plane coordinates. -/
def edgeIntersection (start stop : Vec3) (height : ℚ) : List IPoint :=
  if (start.y ≤ height ∧ stop.y ≥ height) ∨ (start.y ≥ height ∧ stop.y ≤ height) then
    let t : FP := fdiv (some (height - start.y)) (some (stop.y - start.y))
    let x : FP := fadd (some start.x) (fmul t (some (stop.x - start.x)))
    let z : FP := fadd (some start.z) (fmul t (some (stop.z - start.z)))
    [⟨x, height, z⟩]
  else []

/-- Source method `findIntersectionPoints`: pushes the intersection of each of the three
edges `[v1,v2], [v2,v3], [v3,v1]` with the plane onto the accumulator. -/
def findIntersectionPoints (v1 v2 v3 : Vec3) (height : ℚ)
    (intersectionPoints : List IPoint) : List IPoint :=
  [(v1, v2), (v2, v3), (v3, v1)].foldl
    (fun acc e => acc ++ edgeIntersection e.1 e.2 height) intersectionPoints

/-- Model of the JS string `q.toFixed(6)`: the sign prefix (present iff
`q < 0`) and the magnitude rounded to 6 decimal digits (nearest, ties
away from zero).  NaN gives `none` (the string "NaN"). -/
def toFixed6 : FP → Option (Bool × ℤ)
  | none => none
  | some q => some (decide (q < 0), Int.floor (|q| * 1000000 + 1 / 2))

/-- The dedup key `` `${point.x.toFixed(6)}:${point.z.toFixed(6)}` ``. -/
def pointKey (p : IPoint) : Option (Bool × ℤ) × Option (Bool × ℤ) :=
  (toFixed6 p.x, toFixed6 p.z)

/-- JS `Map.prototype.set` on an insertion-ordered association list: an
existing key keeps its position and gets the new value; a new key is
appended. -/
def mapSet {κ : Type} [DecidableEq κ] {υ : Type} (k : κ) (v : υ) :
    List (κ × υ) → List (κ × υ)
  | [] => [(k, v)]
  | (k1, v1) :: rest => if k1 = k then (k, v) :: rest else (k1, v1) :: mapSet k v rest

/-- Source method `removeDuplicatePoints`: insert every point into a `Map` keyed by its
quantized in-plane coordinates, then take the values. -/
def removeDuplicatePoints (points : List IPoint) : List IPoint :=
  (points.foldl (fun m p => mapSet (pointKey p) p m) []).map Prod.snd

/-- Ordering class of `Math.atan2(z, x)` over its range `(-π, π]`:
`0` for angles in `(-π, 0)`, `1` for `0`, `2` for `(0, π)`, `3` for `π`. -/
def halfClass (x z : ℚ) : ℕ :=
  if z < 0 then 0 else if 0 < z then 2 else if 0 ≤ x then 1 else 3

/-- Decides `Math.atan2(az, ax) < Math.atan2(bz, bx)` exactly on
rationals (within one open half-plane the strict counterclockwise test is
the cross product).  Any NaN operand makes the JS comparator NaN; the
model returns `false` there (see the header: JS order is then
implementation-defined, and every proved result is order-independent). -/
def angLt : FP → FP → FP → FP → Bool
  | some ax, some az, some bx, some bz =>
    let ca := halfClass ax az
    let cb := halfClass bx bz
    if ca < cb then true
    else if cb < ca then false
    else decide (0 < ax * bz - az * bx)
  | _, _, _, _ => false

/-- Stable insertion of `x` into `l`: `x` goes before the first element
strictly greater than it (a later-arriving equal element stays after). -/
def insertSorted (lt : IPoint → IPoint → Bool) (x : IPoint) : List IPoint → List IPoint
  | [] => [x]
  | y :: ys => if lt x y then x :: y :: ys else y :: insertSorted lt x ys

/-- Stable sort by a strict comparator (models ES2019 stable
`Array.prototype.sort` under the angle comparator). -/
def stableSortBy (lt : IPoint → IPoint → Bool) (l : List IPoint) : List IPoint :=
  l.foldl (fun acc x => insertSorted lt x acc) []

/-- Source method `sortPointsByAngle`: sort ascending by angle from the centroid
(arithmetic mean) of the points.  For an empty list the centroid scale
`1/0` is degenerate in JS but unused, as here. -/
def sortPointsByAngle (points : List IPoint) : List IPoint :=
  let inv : FP := some (1 / (points.length : ℚ))
  let cx : FP := fmul (points.foldl (fun a p => fadd a p.x) (some 0)) inv
  let cz : FP := fmul (points.foldl (fun a p => fadd a p.z) (some 0)) inv
  stableSortBy
    (fun a b => angLt (fsub a.x cx) (fsub a.z cz) (fsub b.x cx) (fsub b.z cz)) points

/-- Source method `calculatePolygonArea`: shoelace formula with wraparound, absolute
value halved; 0 for fewer than 3 points. -/
def calculatePolygonArea (points : List IPoint) : FP :=
  if points.length < 3 then some 0
  else
    let n := points.length
    let area := (List.range n).foldl
      (fun area i =>
        let j := (i + 1) % n
        fsub (fadd area (fmul (points.getD i default).x (points.getD j default).z))
          (fmul (points.getD j default).x (points.getD i default).z))
      (some 0)
    fdiv (fabs area) (some 2)

/-- Source method `calculateCrossSectionArea`: accumulate intersection points over all
triangles, deduplicate, sort by angle, take the polygon area.  Missing
geometry data gives 0. -/
def calculateCrossSectionArea (mesh : Mesh) (height : ℚ) : FP :=
  match mesh.positions, mesh.indices with
  | some positions, some indices =>
    let pts := (trianglesOf indices).foldl
      (fun acc t =>
        findIntersectionPoints (vertexAt positions t.1) (vertexAt positions t.2.1)
          (vertexAt positions t.2.2) height acc) []
    calculatePolygonArea (sortPointsByAngle (removeDuplicatePoints pts))
  | _, _ => some 0

/-- Source method `calculateVolumeUpToHeight`: trapezoidal accumulation of
cross-section areas over `slices` equal-height bands between the mesh
minimum elevation and `min(height, mesh maximum elevation)`. -/
def calculateVolumeUpToHeight (mesh : Mesh) (height : ℚ) (slices : ℤ) : FP :=
  match mesh.positions, mesh.indices with
  | some positions, some _ =>
    let minY := minYOf positions
    let maxY := min height (maxYOf positions)
    if height < minY then some 0
    else
      let sliceHeight : ℚ := (maxY - minY) / (slices : ℚ)
      (List.range slices.toNat).foldl
        (fun (totalVolume : FP) (i : ℕ) =>
          let currentHeight := minY + (i : ℚ) * sliceHeight
          let nextHeight := currentHeight + sliceHeight
          let area1 := calculateCrossSectionArea mesh currentHeight
          let area2 := calculateCrossSectionArea mesh nextHeight
          fadd totalVolume (fdiv (fmul (some sliceHeight) (fadd area1 area2)) (some 2)))
        (some 0)
  | _, _ => some 0

/-! Specification-side definitions (stated from the spec's words, to be
compared with the source embedding), and concrete inputs used by
counterexamples and witnesses. -/

/-- Sum of a list of NaN-able scalars. -/
def fsum (l : List FP) : FP :=
  l.foldl fadd (some 0)

/-- Spec formula for one shoelace summand over a consecutive pair of ring
vertices: `x_i * z_(i+1) - x_(i+1) * z_i`. -/
def shoelaceTerm (pq : IPoint × IPoint) : FP :=
  fsub (fmul pq.1.x pq.2.z) (fmul pq.2.x pq.1.z)

/-- The consecutive pairs of the ordered ring, with wraparound: each
vertex paired with its cyclic successor. -/
def wrapPairs (l : List IPoint) : List (IPoint × IPoint) :=
  l.zip (l.rotate 1)

/-- Spec formula for the polygon area of an ordered ring with at least 3
vertices: absolute value of half the shoelace sum over consecutive pairs
with wraparound. -/
def shoelaceSpecArea (l : List IPoint) : FP :=
  fdiv (fabs (fsum ((wrapPairs l).map shoelaceTerm))) (some 2)

/-- Spec description of the Volume Estimator: divide
`[minElevation, min(targetElevation, meshMaximumElevation)]` into
`sliceCount` equal-height bands and sum, over every band `[lo, hi]`,
`(hi - lo) * (areaAt lo + areaAt hi) / 2`, where `areaAt` is the
cross-section evaluator. -/
def trapezoidSum (mesh : Mesh) (targetElevation : ℚ) (sliceCount : ℤ) : FP :=
  let minE := meshMinimumElevation mesh
  let effMax := min targetElevation (meshMaximumElevation mesh)
  let bandHeight : ℚ := (effMax - minE) / (sliceCount : ℚ)
  (List.range sliceCount.toNat).foldl
    (fun (acc : FP) (i : ℕ) =>
      let lo := minE + (i : ℚ) * bandHeight
      let hi := minE + ((i : ℚ) + 1) * bandHeight
      fadd acc
        (fdiv
          (fmul (some (hi - lo))
            (fadd (calculateCrossSectionArea mesh lo) (calculateCrossSectionArea mesh hi)))
          (some 2)))
    (some 0)

/-- One triangle whose edge `v0-v1` is horizontal and lies exactly at the
mesh's minimum elevation `y = 0`: the first sampled cutting plane hits
the degenerate edge. -/
def meshHorizontalEdge : Mesh :=
  ⟨some [0, 0, 0, 1, 0, 0, 0, 1, 0], some [0, 1, 2]⟩

/-- A scaled variant of `meshHorizontalEdge` (edge `v0-v1` horizontal at
the minimum elevation). -/
def meshHorizontalEdgeB : Mesh :=
  ⟨some [0, 0, 0, 2, 0, 0, 0, 2, 0], some [0, 1, 2]⟩

/-- A squat body spanning elevations `[0, 1]` (two triangles whose
cross-section at elevation 1/2 is a triangle of area 2) together with a
degenerate needle triangle reaching up to elevation 10, so that the
cross-section area drops to 0 above elevation 1 while the bounding box
extends to 10. -/
def meshSpike : Mesh :=
  ⟨some [0, 0, 0, 4, 1, 0, 0, 1, 0, 0, 1, 4, 0, 10, 0],
   some [0, 1, 2, 0, 3, 2, 0, 4, 4]⟩

/-- A smaller copy of the spike mesh, used to exhibit a strictly positive
volume. -/
def meshBody : Mesh :=
  ⟨some [0, 0, 0, 2, 1, 0, 0, 1, 0, 0, 1, 2, 0, 8, 0],
   some [0, 1, 2, 0, 3, 2, 0, 4, 4]⟩

/-- Rational-valued counterpart of the trapezoidal accumulation loop,
for meshes whose cross-section area function `f` is NaN-free: seed `c`,
band height `Δ`, bottom elevation `m`. -/
def qTrapFold (f : ℚ → ℚ) (m Δ : ℚ) (L : List ℕ) (c : ℚ) : ℚ :=
  L.foldl (fun (c : ℚ) (i : ℕ) => c + Δ * (f (m + (i : ℚ) * Δ) + f (m + (i : ℚ) * Δ + Δ)) / 2) c

/-! Helper lemmas. -/

theorem foldl_min_le_foldl_max {a b : ℚ} (hab : a ≤ b) :
    ∀ l : List ℚ, l.foldl min a ≤ l.foldl max b
  | [] => hab
  | x :: t => foldl_min_le_foldl_max
      (le_trans (min_le_left a x) (le_trans hab (le_max_left b x))) t

theorem minYOf_le_maxYOf (positions : List ℚ) : minYOf positions ≤ maxYOf positions := by
  unfold minYOf maxYOf
  cases ysOf positions with
  | nil => exact le_refl 0
  | cons y ys => exact foldl_min_le_foldl_max (le_refl y) ys

/-! Claim C10. -/

/-- Claim C10: when `sliceCount` is zero or negative, the integration
loop body never executes and `calculateVolumeUpToHeight` returns 0 for
every mesh and target elevation; no division-by-zero fault or exception
escapes (the model is a total function and the degenerate
`sliceHeight` is never read). -/
theorem calculateVolumeUpToHeight_nonpos_sliceCount
    (mesh : Mesh) (height : ℚ) (slices : ℤ) (hn : slices ≤ 0) :
    calculateVolumeUpToHeight mesh height slices = some 0 := by
  obtain ⟨mp, mi⟩ := mesh
  cases mp with
  | none => rfl
  | some positions =>
    cases mi with
    | none => rfl
    | some indices =>
      unfold calculateVolumeUpToHeight
      simp only [Int.toNat_of_nonpos hn, List.range_zero, List.foldl_nil]
      split <;> rfl

/-- Witness for C10 at a concrete mesh, target elevation 5 and slice
count -3. -/
theorem calculateVolumeUpToHeight_nonpos_sliceCount_witness :
    calculateVolumeUpToHeight ⟨some [0, 0, 0], some [0, 0, 0]⟩ 5 (-3) = some 0 :=
  calculateVolumeUpToHeight_nonpos_sliceCount _ 5 (-3) (by decide)

/-! Claim C6. -/

/-- Claim C6: `calculateVolumeUpToHeight` returns exactly 0 (and never
throws: the model is total) when the mesh has no position data or no
index data, and likewise returns exactly 0 when the target elevation is
strictly below the mesh's minimum elevation. -/
theorem calculateVolumeUpToHeight_degenerate_zero
    (mesh : Mesh) (height : ℚ) (slices : ℤ) :
    ((mesh.positions = none ∨ mesh.indices = none) →
      calculateVolumeUpToHeight mesh height slices = some 0) ∧
    (height < meshMinimumElevation mesh →
      calculateVolumeUpToHeight mesh height slices = some 0) := by
  obtain ⟨mp, mi⟩ := mesh
  constructor
  · rintro (h | h) <;> simp only at h <;> subst h
    · rfl
    · cases mp <;> rfl
  · intro hlt
    cases mp with
    | none => rfl
    | some positions =>
      cases mi with
      | none => rfl
      | some indices =>
        have hl : height < minYOf positions := hlt
        unfold calculateVolumeUpToHeight
        simp only [hl, if_pos]

/-- Witness for C6: a mesh with no position data, and a mesh whose
minimum elevation 2 lies above the target elevation 1. -/
theorem calculateVolumeUpToHeight_degenerate_zero_witness :
    calculateVolumeUpToHeight ⟨none, some [0, 1, 2]⟩ 7 4 = some 0 ∧
    calculateVolumeUpToHeight ⟨some [0, 2, 0], some [0, 0, 0]⟩ 1 4 = some 0 :=
  ⟨(calculateVolumeUpToHeight_degenerate_zero _ 7 4).1 (Or.inl rfl),
   (calculateVolumeUpToHeight_degenerate_zero _ 1 4).2 (by with_unfolding_all decide)⟩

/-! Claim C5. -/

/-- Claim C5: whenever the target elevation exceeds the mesh's maximum
elevation, `calculateVolumeUpToHeight` equals its value at the mesh's
maximum elevation (integration is clamped at the mesh's top). -/
theorem calculateVolumeUpToHeight_clamp
    (mesh : Mesh) (height : ℚ) (slices : ℤ)
    (hgt : meshMaximumElevation mesh < height) :
    calculateVolumeUpToHeight mesh height slices
      = calculateVolumeUpToHeight mesh (meshMaximumElevation mesh) slices := by
  obtain ⟨mp, mi⟩ := mesh
  cases mp with
  | none => rfl
  | some positions =>
    cases mi with
    | none => rfl
    | some indices =>
      have hmax : meshMaximumElevation ⟨some positions, some indices⟩ = maxYOf positions := rfl
      rw [hmax] at hgt ⊢
      have hminmax := minYOf_le_maxYOf positions
      unfold calculateVolumeUpToHeight
      dsimp only
      rw [if_neg (not_lt.mpr (le_of_lt (lt_of_le_of_lt hminmax hgt))),
        if_neg (not_lt.mpr hminmax),
        min_eq_right (le_of_lt hgt), min_self]

/-! Claim C3 (corrected: the bound "at most 2" fails; "at most 3"
holds). -/

/-- Counterexample to C3 as stated: for the triangle with vertex
elevations -1, 0 and 1 and the cutting plane at elevation 0, all three
edges satisfy the inclusive crossing condition, so three points — not at
most two — are appended. -/
theorem findIntersectionPoints_three_points :
    (findIntersectionPoints ⟨0, -1, 0⟩ ⟨0, 0, 0⟩ ⟨0, 1, 0⟩ 0 []).length = 3 := by
  with_unfolding_all decide

/-- Claim C3 (amended: at most 3 instead of at most 2):
`findIntersectionPoints` appends the per-edge contributions of the three
edges `v1-v2`, `v2-v3`, `v3-v1` to the accumulator, appending at least 0
and at most 3 points in total, and a single point is appended for an
edge exactly when one endpoint's elevation is `≥` the plane elevation
and the other's is `≤` it (inclusive comparisons). -/
theorem findIntersectionPoints_spec (v1 v2 v3 : Vec3) (height : ℚ) (acc : List IPoint) :
    findIntersectionPoints v1 v2 v3 height acc
      = acc ++ edgeIntersection v1 v2 height ++ edgeIntersection v2 v3 height
          ++ edgeIntersection v3 v1 height
    ∧ acc.length ≤ (findIntersectionPoints v1 v2 v3 height acc).length
    ∧ (findIntersectionPoints v1 v2 v3 height acc).length ≤ acc.length + 3
    ∧ ∀ s e : Vec3, (edgeIntersection s e height).length
        = if (s.y ≤ height ∧ e.y ≥ height) ∨ (s.y ≥ height ∧ e.y ≤ height) then 1 else 0 := by
  have hlen : ∀ s e : Vec3, (edgeIntersection s e height).length
      = if (s.y ≤ height ∧ e.y ≥ height) ∨ (s.y ≥ height ∧ e.y ≤ height) then 1 else 0 := by
    intro s e
    unfold edgeIntersection
    split <;> rfl
  have hle1 : ∀ s e : Vec3, (edgeIntersection s e height).length ≤ 1 := by
    intro s e
    rw [hlen s e]
    split <;> omega
  have hfind : findIntersectionPoints v1 v2 v3 height acc
      = acc ++ edgeIntersection v1 v2 height ++ edgeIntersection v2 v3 height
        ++ edgeIntersection v3 v1 height := rfl
  refine ⟨hfind, ?_, ?_, hlen⟩
  · rw [hfind]
    simp only [List.length_append]
    omega
  · rw [hfind]
    simp only [List.length_append]
    have h1 := hle1 v1 v2
    have h2 := hle1 v2 v3
    have h3 := hle1 v3 v1
    omega

/-! Claim C4. -/

/-- Step-function congruence for left folds. -/
theorem foldl_fun_congr {α β : Type} (f g : β → α → β) (h : ∀ b a, f b a = g b a) :
    ∀ (l : List α) (b : β), l.foldl f b = l.foldl g b
  | [], _ => rfl
  | x :: t, b => by
    rw [List.foldl_cons, List.foldl_cons, h]
    exact foldl_fun_congr f g h t _

/-- Claim C4: for a mesh with position and index data and a target
elevation at or above the mesh minimum, `calculateVolumeUpToHeight`
divides `[minElevation, min(targetElevation, meshMaximumElevation)]`
into `sliceCount` equal-height bands and returns the sum over every band
`[lo, hi]` of `(hi - lo) * (areaAt lo + areaAt hi) / 2` with `areaAt`
the cross-section evaluator (the definition `trapezoidSum` states that
formula verbatim). -/
theorem calculateVolumeUpToHeight_eq_trapezoidSum
    (mesh : Mesh) (height : ℚ) (slices : ℤ)
    (positions : List ℚ) (indices : List ℕ)
    (hp : mesh.positions = some positions) (hi : mesh.indices = some indices)
    (hmin : meshMinimumElevation mesh ≤ height) :
    calculateVolumeUpToHeight mesh height slices = trapezoidSum mesh height slices := by
  obtain ⟨mp, mi⟩ := mesh
  simp only at hp hi
  subst hp
  subst hi
  have hm : meshMinimumElevation ⟨some positions, some indices⟩ = minYOf positions := rfl
  rw [hm] at hmin
  unfold calculateVolumeUpToHeight trapezoidSum
  dsimp only [meshMinimumElevation, meshMaximumElevation, Option.getD]
  rw [if_neg (not_lt.mpr hmin)]
  apply foldl_fun_congr
  intro b i
  have e1 : minYOf positions
        + ((i : ℚ) + 1) * ((min height (maxYOf positions) - minYOf positions) / (slices : ℚ))
      - (minYOf positions
        + (i : ℚ) * ((min height (maxYOf positions) - minYOf positions) / (slices : ℚ)))
      = (min height (maxYOf positions) - minYOf positions) / (slices : ℚ) := by
    ring
  have e2 : minYOf positions
        + (i : ℚ) * ((min height (maxYOf positions) - minYOf positions) / (slices : ℚ))
        + (min height (maxYOf positions) - minYOf positions) / (slices : ℚ)
      = minYOf positions
        + ((i : ℚ) + 1) * ((min height (maxYOf positions) - minYOf positions) / (slices : ℚ)) := by
    ring
  rw [e1, e2]

/-- Witness for C4 at a concrete two-vertex mesh, target elevation 3 and
slice count 2. -/
theorem calculateVolumeUpToHeight_eq_trapezoidSum_witness :
    calculateVolumeUpToHeight ⟨some [0, 0, 0, 1, 2, 3], some [0, 1, 1]⟩ 3 2
      = trapezoidSum ⟨some [0, 0, 0, 1, 2, 3], some [0, 1, 1]⟩ 3 2 :=
  calculateVolumeUpToHeight_eq_trapezoidSum _ 3 2 _ _ rfl rfl
    (by with_unfolding_all decide)

/-! Claim C7 (corrected: deduplication keys on the 6-decimal quantized
pair, which is not the same as collapsing all pairs within 1e-6). -/

/-- Keys of the insertion-ordered map after a `set`: an existing key is
kept in place, a fresh key is appended. -/
theorem mapSet_map_fst_mem {κ υ : Type} [DecidableEq κ] (k : κ) (v : υ) (k1 : κ) :
    ∀ m : List (κ × υ),
      k1 ∈ (mapSet k v m).map Prod.fst ↔ k1 = k ∨ k1 ∈ m.map Prod.fst
  | [] => by simp [mapSet]
  | (k2, v2) :: rest => by
    by_cases h : k2 = k
    · subst h
      simp [mapSet]
    · simp only [mapSet, if_neg h, List.map_cons, List.mem_cons,
        mapSet_map_fst_mem k v k1 rest]
      tauto

/-- A `set` preserves distinctness of the map's keys. -/
theorem mapSet_map_fst_nodup {κ υ : Type} [DecidableEq κ] (k : κ) (v : υ) :
    ∀ m : List (κ × υ), (m.map Prod.fst).Nodup → ((mapSet k v m).map Prod.fst).Nodup
  | [], _ => by simp [mapSet]
  | (k2, v2) :: rest, hnd => by
    rw [List.map_cons, List.nodup_cons] at hnd
    by_cases h : k2 = k
    · subst h
      simpa [mapSet, List.nodup_cons] using hnd
    · simp only [mapSet, if_neg h, List.map_cons, List.nodup_cons]
      refine ⟨?_, mapSet_map_fst_nodup k v rest hnd.2⟩
      rw [mapSet_map_fst_mem]
      rintro (rfl | hmem)
      · exact h rfl
      · exact hnd.1 hmem

/-- Entries after a `set`: the new entry, or an untouched old entry with
a different key. -/
theorem mem_mapSet {κ υ : Type} [DecidableEq κ] {k : κ} {v : υ} :
    ∀ {m : List (κ × υ)} {kv : κ × υ}, (m.map Prod.fst).Nodup →
      kv ∈ mapSet k v m → kv = (k, v) ∨ (kv ∈ m ∧ kv.1 ≠ k)
  | [], kv, _, hm => by
    simp only [mapSet, List.mem_singleton] at hm
    exact Or.inl hm
  | (k2, v2) :: rest, kv, hnd, hm => by
    rw [List.map_cons, List.nodup_cons] at hnd
    by_cases h : k2 = k
    · subst h
      simp only [mapSet, if_pos rfl] at hm
      rcases List.mem_cons.mp hm with rfl | hm
      · exact Or.inl rfl
      · right
        refine ⟨List.mem_cons_of_mem _ hm, fun hk => hnd.1 ?_⟩
        have hmem : kv.1 ∈ rest.map Prod.fst := List.mem_map_of_mem Prod.fst hm
        rwa [hk] at hmem
    · simp only [mapSet, if_neg h] at hm
      rcases List.mem_cons.mp hm with rfl | hm
      · exact Or.inr ⟨List.mem_cons_self _ _, h⟩
      · rcases mem_mapSet hnd.2 hm with rfl | ⟨hmem, hne⟩
        · exact Or.inl rfl
        · exact Or.inr ⟨List.mem_cons_of_mem _ hmem, hne⟩

/-- Invariant of the deduplication fold: distinct keys, every entry is
keyed by its own point's quantized key, the key set is the key set of
the processed points, and every entry's value is the last processed
point with that key. -/
theorem dedupFold_invariant (points : List IPoint) :
    ((points.foldl (fun m p => mapSet (pointKey p) p m) []).map Prod.fst).Nodup
    ∧ (∀ kv ∈ points.foldl (fun m p => mapSet (pointKey p) p m) [],
        pointKey kv.2 = kv.1)
    ∧ (∀ k, k ∈ (points.foldl (fun m p => mapSet (pointKey p) p m) []).map Prod.fst
        ↔ k ∈ points.map pointKey)
    ∧ ∀ kv ∈ points.foldl (fun m p => mapSet (pointKey p) p m) [],
        (points.filter fun q => decide (pointKey q = kv.1)).getLast? = some kv.2 := by
  induction points using List.reverseRecOn with
  | nil => refine ⟨List.nodup_nil, by simp, by simp, by simp⟩
  | append_singleton ps p ih =>
    obtain ⟨ih1, ih2, ih3, ih4⟩ := ih
    rw [List.foldl_append, List.foldl_cons, List.foldl_nil]
    refine ⟨mapSet_map_fst_nodup _ _ _ ih1, ?_, ?_, ?_⟩
    · intro kv hkv
      rcases mem_mapSet ih1 hkv with rfl | ⟨hmem, _⟩
      · rfl
      · exact ih2 kv hmem
    · intro k
      rw [mapSet_map_fst_mem, ih3]
      simp [List.mem_append, or_comm]
    · intro kv hkv
      rw [List.filter_append]
      rcases mem_mapSet ih1 hkv with rfl | ⟨hmem, hne⟩
      · have hp : (List.filter (fun q => decide (pointKey q = pointKey p)) [p]) = [p] := by
          simp
        rw [hp, List.getLast?_concat]
      · have hp : (List.filter (fun q => decide (pointKey q = kv.1)) [p]) = [] := by
          rw [List.filter_cons, List.filter_nil]
          simp only [decide_eq_true_eq]
          rw [if_neg (fun hk => hne hk.symm)]
        rw [hp, List.append_nil]
        exact ih4 kv hmem

/-- Claim C7 (amended): `removeDuplicatePoints` keeps exactly one point
per distinct pair of in-plane coordinates quantized to 6 decimal digits
(the `toFixed(6)` keys), with the last-inserted point for a given key
winning.  Two points collapse exactly when their quantized keys agree —
which is not the same as being within 1e-6 of each other (see the
counterexample). -/
theorem removeDuplicatePoints_spec (points : List IPoint) :
    ((removeDuplicatePoints points).map pointKey).Nodup
    ∧ (∀ k, k ∈ (removeDuplicatePoints points).map pointKey ↔ k ∈ points.map pointKey)
    ∧ ∀ p ∈ removeDuplicatePoints points,
        (points.filter fun q => decide (pointKey q = pointKey p)).getLast? = some p := by
  obtain ⟨h1, h2, h3, h4⟩ := dedupFold_invariant points
  have hmap : (removeDuplicatePoints points).map pointKey
      = (points.foldl (fun m p => mapSet (pointKey p) p m) []).map Prod.fst := by
    unfold removeDuplicatePoints
    rw [List.map_map]
    exact List.map_congr_left fun kv hkv => h2 kv hkv
  refine ⟨hmap ▸ h1, fun k => by rw [hmap]; exact h3 k, ?_⟩
  intro p hp
  obtain ⟨kv, hkv, hkvp⟩ := List.mem_map.mp hp
  have hkey : pointKey p = kv.1 := hkvp ▸ h2 kv hkv
  rw [hkey]
  exact hkvp ▸ h4 kv hkv

/-- Witness for C7: two points whose in-plane coordinates quantize to
the same 6-decimal key collapse to the last-inserted one. -/
theorem removeDuplicatePoints_spec_witness :
    ((removeDuplicatePoints [⟨some 0, 0, some 0⟩, ⟨some 0, 7, some 0⟩]).map pointKey).Nodup
    ∧ ([⟨some 0, 0, some 0⟩, (⟨some 0, 7, some 0⟩ : IPoint)].filter
          fun q => decide (pointKey q = pointKey ⟨some 0, 7, some 0⟩)).getLast?
        = some ⟨some 0, 7, some 0⟩ :=
  ⟨(removeDuplicatePoints_spec _).1,
   (removeDuplicatePoints_spec _).2.2 _ (by with_unfolding_all decide)⟩

/-- Counterexample to the "within 1e-6 collapse" clause of C7: two
points whose in-plane coordinates differ by 2e-7 (well within 1e-6)
round to different 6-decimal keys, so both are kept. -/
theorem removeDuplicatePoints_within_tolerance_not_merged :
    |(4 / 10000000 : ℚ) - 6 / 10000000| < 1 / 1000000
    ∧ |(0 : ℚ) - 0| < 1 / 1000000
    ∧ (removeDuplicatePoints
        [⟨some (4 / 10000000), 0, some 0⟩, ⟨some (6 / 10000000), 0, some 0⟩]).length = 2 := by
  with_unfolding_all decide

/-! Claim C8.  NaN-able addition is a commutative monoid operation with
`some 0` as unit and `none` absorbing, so the shoelace sum is invariant
under permutations, in particular under cyclic rotation. -/

theorem fadd_assoc_aux (a b c : FP) : fadd (fadd a b) c = fadd a (fadd b c) := by
  cases a <;> cases b <;> cases c <;> simp [fadd, add_assoc]

theorem fadd_comm_aux (a b : FP) : fadd a b = fadd b a := by
  cases a <;> cases b <;> simp [fadd, add_comm]

theorem fadd_zero_left (a : FP) : fadd (some 0) a = a := by
  cases a <;> simp [fadd]

theorem fadd_zero_right (a : FP) : fadd a (some 0) = a := by
  cases a <;> simp [fadd]

theorem fsub_fadd_shift (a u v : FP) : fsub (fadd a u) v = fadd a (fsub u v) := by
  cases a <;> cases u <;> cases v <;> simp [fadd, fsub, add_sub_assoc]

theorem foldl_fadd_eq : ∀ (l : List FP) (a : FP), l.foldl fadd a = fadd a (fsum l)
  | [], a => (fadd_zero_right a).symm
  | x :: t, a => by
    have hx : fsum (x :: t) = fadd x (fsum t) := by
      rw [show fsum (x :: t) = t.foldl fadd (fadd (some 0) x) from rfl,
        foldl_fadd_eq t, fadd_zero_left]
    rw [List.foldl_cons, foldl_fadd_eq t, fadd_assoc_aux, hx]

theorem fsum_cons (x : FP) (t : List FP) : fsum (x :: t) = fadd x (fsum t) := by
  rw [show fsum (x :: t) = t.foldl fadd (fadd (some 0) x) from rfl,
    foldl_fadd_eq t, fadd_zero_left]

theorem fsum_perm {l1 l2 : List FP} (h : l1.Perm l2) : fsum l1 = fsum l2 :=
  h.foldl_eq'
    (fun x _ y _ z => by rw [fadd_assoc_aux, fadd_assoc_aux, fadd_comm_aux x y]) (some 0)

theorem foldl_fadd_map {α : Type} (t : α → FP) :
    ∀ (L : List α) (a : FP),
      L.foldl (fun acc i => fadd acc (t i)) a = fadd a (fsum (L.map t))
  | [], a => (fadd_zero_right a).symm
  | x :: L, a => by
    rw [List.foldl_cons, foldl_fadd_map t L, List.map_cons, fsum_cons, fadd_assoc_aux]

/-- Lengths agree between a ring and its wraparound pair list. -/
theorem wrapPairs_length (l : List IPoint) : (wrapPairs l).length = l.length := by
  simp [wrapPairs]

/-- Element lookup in the wraparound pair list. -/
theorem wrapPairs_getElem (l : List IPoint) (i : ℕ) (h : i < (wrapPairs l).length)
    (h1 : i < l.length) (h2 : (i + 1) % l.length < l.length) :
    (wrapPairs l)[i] = (l[i], l[(i + 1) % l.length]) := by
  unfold wrapPairs
  rw [List.getElem_zip]
  refine Prod.ext rfl ?_
  rw [List.getElem_rotate]

/-- The code's index-based shoelace fold equals the spec's sum of
shoelace terms over the wraparound pairs. -/
theorem shoelace_fold_eq (l : List IPoint) :
    (List.range l.length).foldl
      (fun area i =>
        fsub (fadd area (fmul (l.getD i default).x (l.getD ((i + 1) % l.length) default).z))
          (fmul (l.getD ((i + 1) % l.length) default).x (l.getD i default).z))
      (some 0)
      = fsum ((wrapPairs l).map shoelaceTerm) := by
  have hstep : ∀ (area : FP) (i : ℕ),
      fsub (fadd area (fmul (l.getD i default).x (l.getD ((i + 1) % l.length) default).z))
          (fmul (l.getD ((i + 1) % l.length) default).x (l.getD i default).z)
        = fadd area (shoelaceTerm (l.getD i default, l.getD ((i + 1) % l.length) default)) :=
    fun area i => fsub_fadd_shift _ _ _
  rw [foldl_fun_congr _ _ hstep, foldl_fadd_map, fadd_zero_left]
  congr 1
  refine List.ext_getElem ?_ ?_
  · simp [wrapPairs]
  · intro i h1 h2
    have hi : i < l.length := by simpa using h1
    have hj : (i + 1) % l.length < l.length := Nat.mod_lt _ (by omega)
    rw [List.getElem_map, List.getElem_range, List.getElem_map,
      wrapPairs_getElem l i (by simpa using h2) hi hj]
    have e1 : l.getD i default = l[i] := by
      rw [List.getD_eq_getElem?_getD, List.getElem?_eq_getElem hi, Option.getD_some]
    have e2 : l.getD ((i + 1) % l.length) default = l[(i + 1) % l.length] := by
      rw [List.getD_eq_getElem?_getD, List.getElem?_eq_getElem hj, Option.getD_some]
    rw [e1, e2]

/-- Rotating the ring rotates its wraparound pair list. -/
theorem wrapPairs_rotate (l : List IPoint) (k : ℕ) :
    wrapPairs (l.rotate k) = (wrapPairs l).rotate k := by
  refine List.ext_getElem (by simp [wrapPairs]) ?_
  intro i h1 h2
  have hn : i < l.length := by simpa [wrapPairs] using h1
  have hpos : 0 < l.length := by omega
  rw [List.getElem_rotate, wrapPairs_getElem (l.rotate k) i h1
      (by simpa using hn)
      (by rw [List.length_rotate]; exact Nat.mod_lt _ hpos),
    wrapPairs_getElem l ((i + k) % (wrapPairs l).length)
      (by rw [wrapPairs_length]; exact Nat.mod_lt _ hpos)
      (by rw [wrapPairs_length]; exact Nat.mod_lt _ hpos)
      (Nat.mod_lt _ hpos)]
  have hidx : ((i + 1) % l.length + k) % l.length
      = ((i + k) % l.length + 1) % l.length := by
    rw [Nat.mod_add_mod, Nat.mod_add_mod]
    congr 1
    omega
  refine Prod.ext ?_ ?_
  · simp only [List.getElem_rotate, List.length_rotate, wrapPairs_length]
  · simp only [List.getElem_rotate, List.length_rotate, wrapPairs_length, hidx]

/-- Claim C8: `calculatePolygonArea` returns 0 for every list of fewer
than 3 points; for 3 or more points it returns the absolute value of
half the shoelace sum over consecutive pairs with wraparound
(`shoelaceSpecArea`); and its value is invariant under cyclic rotation
of the ordered ring. -/
theorem calculatePolygonArea_spec (points : List IPoint) (k : ℕ) :
    (points.length < 3 → calculatePolygonArea points = some 0)
    ∧ (3 ≤ points.length → calculatePolygonArea points = shoelaceSpecArea points)
    ∧ calculatePolygonArea (points.rotate k) = calculatePolygonArea points := by
  have hsmall : ∀ l : List IPoint, l.length < 3 → calculatePolygonArea l = some 0 := by
    intro l hl
    unfold calculatePolygonArea
    rw [if_pos hl]
  have hbig : ∀ l : List IPoint, 3 ≤ l.length →
      calculatePolygonArea l = shoelaceSpecArea l := by
    intro l hl
    unfold calculatePolygonArea shoelaceSpecArea
    rw [if_neg (not_lt.mpr hl)]
    dsimp only
    rw [shoelace_fold_eq l]
  refine ⟨hsmall points, hbig points, ?_⟩
  by_cases h3 : points.length < 3
  · rw [hsmall points h3, hsmall _ (by simpa using h3)]
  · have h3le : 3 ≤ points.length := not_lt.mp h3
    rw [hbig points h3le, hbig _ (by simpa using h3le)]
    unfold shoelaceSpecArea
    rw [wrapPairs_rotate, List.map_rotate, fsum_perm (List.rotate_perm _ k)]

/-- Witness for C8 on a concrete triangle and rotation by one. -/
theorem calculatePolygonArea_spec_witness :
    calculatePolygonArea
        [⟨some 0, 0, some 0⟩, ⟨some 3, 0, some 0⟩, ⟨some 0, 0, some 3⟩]
      = shoelaceSpecArea [⟨some 0, 0, some 0⟩, ⟨some 3, 0, some 0⟩, ⟨some 0, 0, some 3⟩]
    ∧ calculatePolygonArea
        ([⟨some 0, 0, some 0⟩, ⟨some 3, 0, some 0⟩, ⟨some 0, 0, some 3⟩].rotate 1)
      = calculatePolygonArea
        [⟨some 0, 0, some 0⟩, ⟨some 3, 0, some 0⟩, ⟨some 0, 0, some 3⟩] :=
  ⟨(calculatePolygonArea_spec _ 1).2.1 (by decide),
   (calculatePolygonArea_spec _ 1).2.2⟩

/-! Claim C2 (code bug in the source): the horizontal-edge case is NOT
special-cased.  On an edge with both endpoints at the plane elevation
the interpolation parameter is `0/0` (NaN), the NaN point survives
deduplication (key "NaN:NaN"), and with at least two other intersection
points the NaN reaches the shoelace sum, the cross-section area and the
total volume. -/

/-- Claim C2: at the horizontal-edge mesh the interpolation divides zero
by zero, and the resulting NaN propagates into the total volume, which
is NaN (`none`) — not a finite non-negative real as the claim states.
The first conjunct exhibits the NaN point produced by the degenerate
edge itself. -/
theorem horizontalEdge_volume_isNaN :
    edgeIntersection ⟨0, 0, 0⟩ ⟨1, 0, 0⟩ 0 = [⟨none, 0, none⟩]
    ∧ calculateVolumeUpToHeight meshHorizontalEdge 1 1 = none := by
  with_unfolding_all decide

/-! Claim C9 (corrected: the result can be NaN — see the counterexample;
whenever it is a real number it is non-negative). -/

theorem fdiv_fabs_two_nonneg {F : FP} {a : ℚ} (h : fdiv (fabs F) (some 2) = some a) :
    0 ≤ a := by
  cases F with
  | none => simp [fabs, fdiv] at h
  | some q =>
    simp only [fabs, fdiv, if_neg (two_ne_zero (α := ℚ))] at h
    rw [← Option.some.inj h]
    positivity

theorem calculatePolygonArea_nonneg {pts : List IPoint} {a : ℚ}
    (h : calculatePolygonArea pts = some a) : 0 ≤ a := by
  unfold calculatePolygonArea at h
  split at h
  · rw [← Option.some.inj h]
  · dsimp only at h
    exact fdiv_fabs_two_nonneg h

theorem calculateCrossSectionArea_nonneg {mesh : Mesh} {h : ℚ} {a : ℚ}
    (ha : calculateCrossSectionArea mesh h = some a) : 0 ≤ a := by
  obtain ⟨mp, mi⟩ := mesh
  cases mp with
  | none => exact (Option.some.inj ha) ▸ le_refl 0
  | some positions =>
    cases mi with
    | none => exact (Option.some.inj ha) ▸ le_refl 0
    | some indices =>
      unfold calculateCrossSectionArea at ha
      dsimp only at ha
      exact calculatePolygonArea_nonneg ha

theorem foldl_fadd_none {α : Type} (t : α → FP) (l : List α) :
    l.foldl (fun acc i => fadd acc (t i)) none = none := by
  induction l with
  | nil => rfl
  | cons x xs ih =>
    rw [List.foldl_cons, show fadd none (t x) = none from rfl]
    exact ih

theorem foldl_fadd_nonneg {α : Type} (t : α → FP) :
    ∀ l : List α, (∀ i ∈ l, ∀ w : ℚ, t i = some w → 0 ≤ w) →
      ∀ c : ℚ, 0 ≤ c → ∀ v : ℚ,
        l.foldl (fun acc i => fadd acc (t i)) (some c) = some v → 0 ≤ v
  | [], _, c, hc, v, hv => by
    rw [List.foldl_nil] at hv
    exact (Option.some.inj hv) ▸ hc
  | x :: xs, ht, c, hc, v, hv => by
    rw [List.foldl_cons] at hv
    cases htx : t x with
    | none =>
      rw [htx, show fadd (some c) none = none from rfl, foldl_fadd_none] at hv
      exact absurd hv (by simp)
    | some w =>
      rw [htx, show fadd (some c) (some w) = some (c + w) from rfl] at hv
      exact foldl_fadd_nonneg t xs (fun i hi => ht i (List.mem_cons_of_mem _ hi))
        (c + w) (add_nonneg hc (ht x (List.mem_cons_self _ _) w htx)) v hv

/-- Claim C9 (amended): whenever `calculateVolumeUpToHeight` returns a
real number (not NaN), that number is non-negative; degenerate input
yields 0 (claim C6) and the model is a pure function of its inputs.  As
stated, the claim fails: the counterexample shows a mesh for which the
returned value is NaN. -/
theorem calculateVolumeUpToHeight_nonneg (mesh : Mesh) (height : ℚ) (slices : ℤ)
    (v : ℚ) (hv : calculateVolumeUpToHeight mesh height slices = some v) : 0 ≤ v := by
  obtain ⟨mp, mi⟩ := mesh
  cases mp with
  | none => exact (Option.some.inj hv) ▸ le_refl 0
  | some positions =>
    cases mi with
    | none => exact (Option.some.inj hv) ▸ le_refl 0
    | some indices =>
      unfold calculateVolumeUpToHeight at hv
      dsimp only at hv
      split at hv
      · exact (Option.some.inj hv) ▸ le_refl 0
      · rename_i hge
        refine foldl_fadd_nonneg _ _ ?_ 0 (le_refl 0) v hv
        intro i hi w hw
        have hipos : 0 < slices := by
          have : i < slices.toNat := List.mem_range.mp hi
          omega
        cases ha1 : calculateCrossSectionArea ⟨some positions, some indices⟩
            (minYOf positions
              + (i : ℚ) * ((min height (maxYOf positions) - minYOf positions) / (slices : ℚ))) with
        | none =>
          rw [ha1] at hw
          simp [fadd, fmul, fdiv] at hw
        | some a1 =>
          cases ha2 : calculateCrossSectionArea ⟨some positions, some indices⟩
              (minYOf positions
                + (i : ℚ) * ((min height (maxYOf positions) - minYOf positions) / (slices : ℚ))
                + (min height (maxYOf positions) - minYOf positions) / (slices : ℚ)) with
          | none =>
            rw [ha1, ha2] at hw
            simp [fadd, fmul, fdiv] at hw
          | some a2 =>
            rw [ha1, ha2,
              show fadd (some a1) (some a2) = some (a1 + a2) from rfl,
              show fmul (some ((min height (maxYOf positions) - minYOf positions) / (slices : ℚ)))
                  (some (a1 + a2))
                = some ((min height (maxYOf positions) - minYOf positions) / (slices : ℚ)
                    * (a1 + a2)) from rfl] at hw
            rw [show (fdiv
                (some ((min height (maxYOf positions) - minYOf positions) / (slices : ℚ)
                  * (a1 + a2))) (some 2))
              = some ((min height (maxYOf positions) - minYOf positions) / (slices : ℚ)
                  * (a1 + a2) / 2) from by
                rw [fdiv, if_neg (two_ne_zero (α := ℚ))]] at hw
            rw [← Option.some.inj hw]
            have hΔ : 0 ≤ (min height (maxYOf positions) - minYOf positions) / (slices : ℚ) := by
              apply div_nonneg
              · have h1 : minYOf positions ≤ height := not_lt.mp hge
                have h2 := minYOf_le_maxYOf positions
                simp only [sub_nonneg, le_min_iff]
                exact ⟨h1, h2⟩
              · exact_mod_cast le_of_lt hipos
            have h1 := calculateCrossSectionArea_nonneg ha1
            have h2 := calculateCrossSectionArea_nonneg ha2
            positivity

/-- Counterexample to C9 as stated: the scaled horizontal-edge mesh
yields NaN (`none`) — not a non-negative real — at target elevation 2
with one slice. -/
theorem volume_nan_not_nonneg_real :
    calculateVolumeUpToHeight meshHorizontalEdgeB 2 1 = none := by
  with_unfolding_all decide

/-- Witness for C9 at a mesh with strictly positive volume. -/
theorem calculateVolumeUpToHeight_nonneg_witness :
    calculateVolumeUpToHeight meshBody (1 / 2) 1 = some (1 / 8) ∧ (0 : ℚ) ≤ 1 / 8 :=
  ⟨by with_unfolding_all decide,
   calculateVolumeUpToHeight_nonneg meshBody (1 / 2) 1 (1 / 8)
     (by with_unfolding_all decide)⟩

/-! Claim C1 (corrected): the trapezoidal sample points move with the
target elevation, so the estimate is NOT monotone in the target
elevation for every mesh; it is monotone when the cross-section area
function is NaN-free and non-decreasing in elevation. -/

theorem fadd_some_some (a b : ℚ) : fadd (some a) (some b) = some (a + b) := rfl

theorem fmul_some_some (a b : ℚ) : fmul (some a) (some b) = some (a * b) := rfl

theorem fdiv_some_two (a : ℚ) : fdiv (some a) (some 2) = some (a / 2) := by
  simp only [fdiv]
  rw [if_neg (two_ne_zero (α := ℚ))]

/-- When every cross-section area of the mesh is a real number, the
NaN-able trapezoidal loop computes `qTrapFold`. -/
theorem vol_fold_eq_qfold (mesh : Mesh) (f : ℚ → ℚ)
    (hf : ∀ h : ℚ, calculateCrossSectionArea mesh h = some (f h)) (m Δ : ℚ) :
    ∀ (L : List ℕ) (c : ℚ),
      L.foldl
        (fun (tv : FP) (i : ℕ) =>
          fadd tv
            (fdiv
              (fmul (some Δ)
                (fadd (calculateCrossSectionArea mesh (m + (i : ℚ) * Δ))
                  (calculateCrossSectionArea mesh (m + (i : ℚ) * Δ + Δ))))
              (some 2)))
        (some c)
      = some (qTrapFold f m Δ L c)
  | [], c => rfl
  | i :: L, c => by
    rw [List.foldl_cons, hf, hf, fadd_some_some, fmul_some_some,
      fdiv_some_two, fadd_some_some, vol_fold_eq_qfold mesh f hf m Δ L]
    rw [show qTrapFold f m Δ (i :: L) c
      = qTrapFold f m Δ L (c + Δ * (f (m + (i : ℚ) * Δ) + f (m + (i : ℚ) * Δ + Δ)) / 2)
      from rfl]

/-- Termwise monotonicity of a rational accumulation fold. -/
theorem qfold_mono (t1 t2 : ℕ → ℚ) :
    ∀ L : List ℕ, (∀ i ∈ L, t1 i ≤ t2 i) → ∀ c1 c2 : ℚ, c1 ≤ c2 →
      L.foldl (fun c i => c + t1 i) c1 ≤ L.foldl (fun c i => c + t2 i) c2
  | [], _, _, _, hc => hc
  | i :: L, ht, c1, c2, hc => by
    rw [List.foldl_cons, List.foldl_cons]
    exact qfold_mono t1 t2 L (fun j hj => ht j (List.mem_cons_of_mem _ hj)) _ _
      (add_le_add hc (ht i (List.mem_cons_self _ _)))

/-- A rational accumulation fold of non-negative terms from a
non-negative seed is non-negative. -/
theorem qfold_nonneg (t : ℕ → ℚ) :
    ∀ L : List ℕ, (∀ i ∈ L, 0 ≤ t i) → ∀ c : ℚ, 0 ≤ c →
      0 ≤ L.foldl (fun c i => c + t i) c
  | [], _, _, hc => hc
  | i :: L, ht, c, hc => by
    rw [List.foldl_cons]
    exact qfold_nonneg t L (fun j hj => ht j (List.mem_cons_of_mem _ hj)) _
      (add_nonneg hc (ht i (List.mem_cons_self _ _)))

/-- A `qTrapFold` of a non-negative area function with a non-negative
band height is non-negative. -/
theorem qTrapFold_nonneg (f : ℚ → ℚ) (hf0 : ∀ h : ℚ, 0 ≤ f h) (m : ℚ) {Δ : ℚ}
    (hΔ : 0 ≤ Δ) (L : List ℕ) : 0 ≤ qTrapFold f m Δ L 0 := by
  refine qfold_nonneg _ L ?_ 0 (le_refl 0)
  intro i _
  have h1 := hf0 (m + (i : ℚ) * Δ)
  have h2 := hf0 (m + (i : ℚ) * Δ + Δ)
  positivity

/-- Monotonicity of `qTrapFold` in the band height, for a monotone
non-negative area function. -/
theorem qTrapFold_mono (f : ℚ → ℚ) (lo hi : ℚ)
    (hmono : ∀ a b : ℚ, lo ≤ a → a ≤ b → b ≤ hi → f a ≤ f b)
    (hf0 : ∀ h : ℚ, 0 ≤ f h) {Δ1 Δ2 : ℚ} (h0 : 0 ≤ Δ1) (h12 : Δ1 ≤ Δ2)
    (n : ℕ) (htop : lo + (n : ℚ) * Δ2 ≤ hi) :
    qTrapFold f lo Δ1 (List.range n) 0 ≤ qTrapFold f lo Δ2 (List.range n) 0 := by
  have h02 : 0 ≤ Δ2 := le_trans h0 h12
  refine qfold_mono _ _ (List.range n) ?_ 0 0 (le_refl 0)
  intro i hmem
  have hin : i < n := List.mem_range.mp hmem
  have hile : ((i : ℚ)) + 1 ≤ (n : ℚ) := by exact_mod_cast hin
  have hiq : (0 : ℚ) ≤ (i : ℚ) := Nat.cast_nonneg i
  have hstep1 : 0 ≤ (i : ℚ) * Δ1 := mul_nonneg hiq h0
  have hnode1 : lo + (i : ℚ) * Δ1 ≤ lo + (i : ℚ) * Δ2 :=
    add_le_add_left (mul_le_mul_of_nonneg_left h12 hiq) _
  have hnode2 : lo + (i : ℚ) * Δ1 + Δ1 ≤ lo + (i : ℚ) * Δ2 + Δ2 :=
    add_le_add hnode1 h12
  have huphi : lo + (i : ℚ) * Δ2 + Δ2 ≤ hi := by
    have hbound : ((i : ℚ) + 1) * Δ2 ≤ (n : ℚ) * Δ2 :=
      mul_le_mul_of_nonneg_right hile h02
    nlinarith
  have hmidhi : lo + (i : ℚ) * Δ2 ≤ hi := by
    nlinarith
  have hA := hmono _ _ (le_add_of_nonneg_right hstep1) hnode1 hmidhi
  have hB := hmono _ _ (by linarith) hnode2 huphi
  have hsum : 0 ≤ f (lo + (i : ℚ) * Δ1) + f (lo + (i : ℚ) * Δ1 + Δ1) :=
    add_nonneg (hf0 _) (hf0 _)
  have hmul := mul_le_mul h12 (add_le_add hA hB) hsum h02
  exact (div_le_div_iff_of_pos_right (by norm_num : (0 : ℚ) < 2)).mpr hmul

/-- Counterexample to C1 as stated: on the spike mesh with one slice,
the estimate at target elevation 1/2 is 1/2, but at the larger target
elevation 2 it is 0 — so the estimate is not monotonically
non-decreasing in the target elevation. -/
theorem volume_not_monotone_in_elevation :
    ((1 : ℚ) / 2 ≤ 2)
    ∧ calculateVolumeUpToHeight meshSpike (1 / 2) 1 = some (1 / 2)
    ∧ calculateVolumeUpToHeight meshSpike 2 1 = some 0
    ∧ ¬ ((1 : ℚ) / 2 ≤ 0) := by
  with_unfolding_all decide

/-- Claim C1 (amended): for a fixed positive sliceCount the estimate is
monotonically non-decreasing in the target elevation provided the
mesh's cross-section area function is everywhere a real number (no NaN)
and non-decreasing on the mesh's own elevation range
`[meshMinimumElevation, meshMaximumElevation]` — every quadrature node
lies in that interval, so monotonicity outside it is irrelevant (and
would be unsatisfiable, since the area is 0 above the mesh top).  For
an arbitrary mesh the claim fails (see the counterexample): the
quadrature nodes rescale with the target elevation, so a cross-section
sampled at a large area for the lower target can be skipped entirely
for the higher one. -/
theorem calculateVolumeUpToHeight_mono_of_monotone_area
    (mesh : Mesh) (e1 e2 : ℚ) (n : ℤ) (f : ℚ → ℚ)
    (hf : ∀ h : ℚ, calculateCrossSectionArea mesh h = some (f h))
    (hmono : ∀ a b : ℚ, meshMinimumElevation mesh ≤ a → a ≤ b →
      b ≤ meshMaximumElevation mesh → f a ≤ f b)
    (hn : 0 < n) (he : e1 ≤ e2) :
    ∃ v1 v2 : ℚ, calculateVolumeUpToHeight mesh e1 n = some v1
      ∧ calculateVolumeUpToHeight mesh e2 n = some v2 ∧ v1 ≤ v2 := by
  have hf0 : ∀ h : ℚ, 0 ≤ f h := fun h => calculateCrossSectionArea_nonneg (hf h)
  have hnq : (0 : ℚ) < (n : ℚ) := by exact_mod_cast hn
  obtain ⟨mp, mi⟩ := mesh
  cases mp with
  | none => exact ⟨0, 0, rfl, rfl, le_refl 0⟩
  | some positions =>
    cases mi with
    | none => exact ⟨0, 0, rfl, rfl, le_refl 0⟩
    | some indices =>
      have hminmax := minYOf_le_maxYOf positions
      have hvol : ∀ e : ℚ, ¬ e < minYOf positions →
          calculateVolumeUpToHeight ⟨some positions, some indices⟩ e n
            = some (qTrapFold f (minYOf positions)
                ((min e (maxYOf positions) - minYOf positions) / (n : ℚ))
                (List.range n.toNat) 0) := by
        intro e hge
        unfold calculateVolumeUpToHeight
        dsimp only
        rw [if_neg hge]
        exact vol_fold_eq_qfold ⟨some positions, some indices⟩ f hf (minYOf positions)
          ((min e (maxYOf positions) - minYOf positions) / (n : ℚ))
          (List.range n.toNat) 0
      have hΔnn : ∀ e : ℚ, ¬ e < minYOf positions →
          0 ≤ (min e (maxYOf positions) - minYOf positions) / (n : ℚ) := by
        intro e hge
        apply div_nonneg _ (le_of_lt hnq)
        simp only [sub_nonneg, le_min_iff]
        exact ⟨not_lt.mp hge, hminmax⟩
      by_cases he1 : e1 < minYOf positions
      · have hv1 : calculateVolumeUpToHeight ⟨some positions, some indices⟩ e1 n
            = some 0 := by
          unfold calculateVolumeUpToHeight
          dsimp only
          rw [if_pos he1]
        by_cases he2 : e2 < minYOf positions
        · refine ⟨0, 0, hv1, ?_, le_refl 0⟩
          unfold calculateVolumeUpToHeight
          dsimp only
          rw [if_pos he2]
        · exact ⟨0, _, hv1, hvol e2 he2,
            qTrapFold_nonneg f hf0 (minYOf positions) (hΔnn e2 he2) _⟩
      · have he2 : ¬ e2 < minYOf positions := not_lt.mpr (le_trans (not_lt.mp he1) he)
        have h12 : (min e1 (maxYOf positions) - minYOf positions) / (n : ℚ)
            ≤ (min e2 (maxYOf positions) - minYOf positions) / (n : ℚ) :=
          (div_le_div_iff_of_pos_right hnq).mpr (sub_le_sub_right (min_le_min he (le_refl _)) _)
        have hmono2 : ∀ a b : ℚ, minYOf positions ≤ a → a ≤ b → b ≤ maxYOf positions →
            f a ≤ f b := fun a b ha hab hb => hmono a b ha hab hb
        have hcast : ((n.toNat : ℕ) : ℚ) = (n : ℚ) := by
          exact_mod_cast congrArg (fun z : ℤ => (z : ℚ)) (Int.toNat_of_nonneg (le_of_lt hn))
        have htop : minYOf positions + ((n.toNat : ℕ) : ℚ)
            * ((min e2 (maxYOf positions) - minYOf positions) / (n : ℚ))
            ≤ maxYOf positions := by
          rw [hcast, mul_comm, div_mul_cancel₀ _ (ne_of_gt hnq)]
          have hm2 := min_le_right e2 (maxYOf positions)
          linarith
        exact ⟨_, _, hvol e1 he1, hvol e2 he2,
          qTrapFold_mono f (minYOf positions) (maxYOf positions) hmono2 hf0
            (hΔnn e1 he1) h12 n.toNat htop⟩

/-- Witness for C1 at a mesh with a non-degenerate elevation range
`[0, 1]` and no triangles, whose cross-section area function is
constantly 0 (NaN-free and non-decreasing on the range), with target
elevations 1/4 and 3/4 and two slices. -/
theorem calculateVolumeUpToHeight_mono_of_monotone_area_witness :
    ∃ v1 v2 : ℚ,
      calculateVolumeUpToHeight ⟨some [0, 0, 0, 0, 1, 0], some []⟩ (1 / 4) 2 = some v1
      ∧ calculateVolumeUpToHeight ⟨some [0, 0, 0, 0, 1, 0], some []⟩ (3 / 4) 2 = some v2
      ∧ v1 ≤ v2 :=
  calculateVolumeUpToHeight_mono_of_monotone_area ⟨some [0, 0, 0, 0, 1, 0], some []⟩
    (1 / 4) (3 / 4) 2 (fun _ => 0) (fun _ => rfl) (fun _ _ _ _ _ => le_refl 0)
    (by decide) (by norm_num)


/-- Witness for C5: a mesh with maximum elevation 1 and target elevation
5. -/
theorem calculateVolumeUpToHeight_clamp_witness :
    calculateVolumeUpToHeight ⟨some [0, 0, 0, 0, 1, 0, 1, 1, 0], some [0, 1, 2]⟩ 5 3
      = calculateVolumeUpToHeight ⟨some [0, 0, 0, 0, 1, 0, 1, 1, 0], some [0, 1, 2]⟩
          (meshMaximumElevation ⟨some [0, 0, 0, 0, 1, 0, 1, 1, 0], some [0, 1, 2]⟩) 3 :=
  calculateVolumeUpToHeight_clamp _ 5 3 (by with_unfolding_all decide)

end VolumeCalc
